import Mathlib

/-!
Verification of the loot-extraction core of the WowheadLootExtractor
repository (`utils/utils.py`, `utils/parser.py`, `utils/config.py`).

Embedding conventions:
* a Python string is a `List Char`; an index into it is a `Nat`;
* Python ints are `Int`/`Nat` (values captured by `(\d+)` are `Nat`,
  values captured by `(-?\d+)` are `Int`); Python floats produced by the
  drop-chance arithmetic are modelled as exact rationals `ℚ`;
* the regular expressions used by the source are each embedded as a
  dedicated scanning function over the suffix of the text at a position,
  with `re.search` / `re.finditer` semantics (leftmost match; resume after
  the previous match's end).  The concrete patterns in the source need no
  backtracking beyond the greedy/lazy behaviour implemented here;
* loops that are not structurally recursive use an explicit fuel argument
  bounded by the text length, so every definition reduces in the kernel;
* functions that print a diagnostic are modelled as returning the list of
  emitted diagnostics next to their result.
-/

namespace Wowhead

/-- Python `\s` on the ASCII range (the embedded documents are ASCII). -/
def isWsCh (c : Char) : Bool :=
  c = ' ' || c = '\t' || c = '\n' || c = '\r' || c = '\x0b' || c = '\x0c'

/-- Scanner state of `find_matching_bracket` / `compute_depth_at`:
current bracket depth, the quote character when inside a string, and the
one-character escape flag. -/
abbrev ScanSt := Int × Option Char × Bool

/-- One step of the shared quote/escape-aware scan of `utils.py`
(`find_matching_bracket` and `compute_depth_at` use the identical rule):
inside a string a backslash escapes the next character and the matching
unescaped quote leaves the string; outside a string a quote enters string
mode, `o` increments the depth and `c` decrements it. -/
def scanStep (o c : Char) : ScanSt → Char → ScanSt
  | (d, some q, e), ch =>
    if e then (d, some q, false)
    else if ch = '\\' then (d, some q, true)
    else if ch = q then (d, none, false)
    else (d, some q, false)
  | (d, none, e), ch =>
    if ch = '"' || ch = '\'' then (d, some ch, e)
    else if ch = o then (d + 1, none, e)
    else if ch = c then (d - 1, none, e)
    else (d, none, e)

/-- Loop of `utils.find_matching_bracket`: `idx` is the absolute index of
the head of `cs`; returns the index at which the depth comes back to zero,
`-1` when it never does. -/
def fmbAux (o c : Char) : List Char → Nat → ScanSt → Int
  | [], _, _ => -1
  | ch :: rest, idx, (d, some q, e) =>
    fmbAux o c rest (idx + 1) (scanStep o c (d, some q, e) ch)
  | ch :: rest, idx, (d, none, e) =>
    if ch = '"' || ch = '\'' then fmbAux o c rest (idx + 1) (d, some ch, e)
    else if ch = o then fmbAux o c rest (idx + 1) (d + 1, none, e)
    else if ch = c then
      (if d - 1 = 0 then (idx : Int) else fmbAux o c rest (idx + 1) (d - 1, none, e))
    else fmbAux o c rest (idx + 1) (d, none, e)

/-- `utils.find_matching_bracket(s, start_idx, open_ch, close_ch)`:
index of the closing bracket matching the opening bracket at `start`,
quote/escape aware, `-1` when not found. -/
def find_matching_bracket (s : List Char) (start : Nat) (o c : Char) : Int :=
  fmbAux o c (s.drop start) start (0, none, false)

/-- Reference notion for the matcher: the offset (relative to the start of
the scan) of the first character whose processing brings the `{`-free
depth of the scan back to zero, following the same quote/escape machine. -/
def firstZeroIdx (o c : Char) : List Char → ScanSt → Option Nat
  | [], _ => none
  | ch :: rest, st =>
    let st' := scanStep o c st ch
    if st'.1 = 0 then some 0 else (firstZeroIdx o c rest st').map Nat.succ

/-- Loop of `utils.compute_depth_at`: replays the scan over the first
`k` characters and returns the current `{`/`}` depth. -/
def cdaAux : List Char → Nat → ScanSt → Int
  | _, 0, (d, _, _) => d
  | [], _ + 1, (d, _, _) => d
  | ch :: rest, k + 1, (d, some q, e) =>
    cdaAux rest k (scanStep '\x7b' '\x7d' (d, some q, e) ch)
  | ch :: rest, k + 1, (d, none, e) =>
    cdaAux rest k (scanStep '\x7b' '\x7d' (d, none, e) ch)

/-- `utils.compute_depth_at(s, idx)`: bracket depth of the `{`/`}` pair at
position `idx`, quote/escape aware (callers always pass `idx ≤ s.length`).  -/
def compute_depth_at (s : List Char) (idx : Nat) : Int :=
  cdaAux s idx (0, none, false)

/-- Python `s.find(ch, start)`, as an `Option` (`None` for `-1`). -/
def findCharFrom (s : List Char) (ch : Char) (start : Nat) : Option Nat :=
  go (s.drop start) start
where
  go : List Char → Nat → Option Nat
    | [], _ => none
    | c :: rest, idx => if c = ch then some idx else go rest (idx + 1)

/-- `find_matching_bracket` with its `-1` sentinel turned into `none`
(every caller in `parser.py` checks `== -1` right away). -/
def fmbOpt (s : List Char) (start : Nat) (o c : Char) : Option Nat :=
  let r := find_matching_bracket s start o c
  if r = -1 then none else some r.toNat

/-- Python `s[a:b]` for `0 ≤ a ≤ b`. -/
def slice (s : List Char) (a b : Nat) : List Char :=
  (s.take b).drop a

/-- Inner loop of `utils.extract_objects_from_array_str`: starting just
after an opening `{` (accumulated in `acc`, depth already 1), consume until
the matching close or the end of the text; returns the captured object text
(including both braces when closed) and the rest of the input. -/
def captureObj : List Char → Int → Option Char → Bool → List Char → List Char × List Char
  | [], _, _, _, acc => (acc.reverse, [])
  | c :: rest, depth, instr, esc, acc =>
    if depth ≤ 0 then (acc.reverse, c :: rest)
    else
      match instr with
      | some q =>
        if esc then captureObj rest depth (some q) false (c :: acc)
        else if c = '\\' then captureObj rest depth (some q) true (c :: acc)
        else if c = q then captureObj rest depth none false (c :: acc)
        else captureObj rest depth (some q) esc (c :: acc)
      | none =>
        if c = '"' || c = '\'' then captureObj rest depth (some c) esc (c :: acc)
        else if c = '\x7b' then captureObj rest (depth + 1) none esc (c :: acc)
        else if c = '\x7d' then captureObj rest (depth - 1) none esc (c :: acc)
        else captureObj rest depth none esc (c :: acc)

/-- Outer loop of `utils.extract_objects_from_array_str`, with fuel
(each iteration consumes at least one character). -/
def extractObjGo : Nat → List Char → List (List Char)
  | 0, _ => []
  | _ + 1, [] => []
  | fuel + 1, c :: rest =>
    if c = '\x7b' then
      let p := captureObj rest 1 none false [c]
      p.1 :: extractObjGo fuel p.2
    else extractObjGo fuel rest

/-- `utils.extract_objects_from_array_str(s)`: the top-level `{...}`
object substrings of an array body, in order. -/
def extract_objects_from_array_str (s : List Char) : List (List Char) :=
  extractObjGo (s.length + 1) s

/-! ### Embedding of the concrete regular expressions of `parser.py`

A matcher takes the suffix of the text at the attempted position and
returns the captured data together with the remaining suffix.  All
patterns of `parser.py` are anchored compositions of literals, `\s*`,
digit runs and simple alternations, matched here with the engine's
leftmost / first-alternative / greedy-or-lazy-star behaviour. -/

/-- Consume a literal. -/
def litAt : List Char → List Char → Option (List Char)
  | [], cs => some cs
  | _ :: _, [] => none
  | p :: ps, c :: cs => if c = p then litAt ps cs else none

/-- Consume a literal case-insensitively (`re.I`). -/
def litAtCI : List Char → List Char → Option (List Char)
  | [], cs => some cs
  | _ :: _, [] => none
  | p :: ps, c :: cs => if c.toLower = p.toLower then litAtCI ps cs else none

/-- `\s*X` for a single required character `X`. -/
def wsExpect (x : Char) : List Char → Option (List Char)
  | [] => none
  | c :: r => if isWsCh c then wsExpect x r else if c = x then some r else none

/-- One of the two quote characters (`['\"]`). -/
def quoteCh : List Char → Option (List Char)
  | [] => none
  | c :: r => if c = '"' || c = '\'' then some r else none

/-- Optional quote character (`["\']?`, greedy). -/
def quoteOpt : List Char → List Char
  | [] => []
  | c :: r => if c = '"' || c = '\'' then r else c :: r

def isDigitCh (c : Char) : Bool := '0' ≤ c && c ≤ '9'

/-- Split off the leading digit run. -/
def takeDigits : List Char → List Char × List Char
  | [] => ([], [])
  | c :: r =>
    if isDigitCh c then
      let p := takeDigits r
      (c :: p.1, p.2)
    else ([], c :: r)

def digitsVal (run : List Char) : Nat :=
  run.foldl (fun n c => n * 10 + (c.toNat - 48)) 0

/-- `(\d+)` as a `Nat`. -/
def natNum : List Char → Option (Nat × List Char) :=
  fun cs =>
    let p := takeDigits cs
    if p.1.isEmpty then none else some (digitsVal p.1, p.2)

/-- `(-?\d+)` as an `Int`. -/
def intNum : List Char → Option (Int × List Char)
  | [] => none
  | c :: r =>
    if c = '-' then (natNum r).map (fun p => (-(p.1 : Int), p.2))
    else (natNum (c :: r)).map (fun p => ((p.1 : Int), p.2))

/-- `([0-9]+(?:\.[0-9]+)?)` as an exact rational. -/
def ratNum (cs : List Char) : Option (ℚ × List Char) :=
  match natNum cs with
  | none => none
  | some (n, rest) =>
    match rest with
    | '.' :: r2 =>
      match natNum r2 with
      | some (f, r3) =>
        let p := takeDigits r2
        some ((n : ℚ) + (f : ℚ) / ((10 : ℚ) ^ p.1.length), r3)
      | none => some ((n : ℚ), rest)
    | _ => some ((n : ℚ), rest)

/-- `['\"]KEY['\"]\s*:\s*` for a literal key, exact case. -/
def keyColon (key : List Char) (cs : List Char) : Option (List Char) :=
  (quoteCh cs).bind fun r1 =>
    (litAt key r1).bind fun r2 =>
      (quoteCh r2).bind fun r3 => wsExpect ':' r3

/-- Drop leading whitespace (`\s*` before a capture). -/
def skipWs : List Char → List Char
  | [] => []
  | c :: r => if isWsCh c then skipWs r else c :: r

/-- `['\"]KEY['\"]\s*:\s*(\d+)`. -/
def keyNat (key : List Char) (cs : List Char) : Option (Nat × List Char) :=
  (keyColon key cs).bind fun r => natNum (skipWs r)

/-- Lazy `[^STOP]*?LIT`: skip characters different from `stop` until the
literal matches, failing on `stop` or at the end of the text (the
first-alternative preference of a lazy star: the literal is attempted
before each skip). -/
def lazyLit (stop : Char) (pat : List Char) : List Char → Option (List Char)
  | [] => none
  | c :: r =>
    match litAt pat (c :: r) with
    | some rest => some rest
    | none => if c = stop then none else lazyLit stop pat r

/-- Lazy `[^}]*?\}`: skip to the first closing brace and consume it. -/
def lazyClose : List Char → Option (List Char)
  | [] => none
  | c :: r => if c = '\x7d' then some r else lazyClose r

/-- The generic search/scan engine: a matcher on the suffix. -/
abbrev Mtch (α : Type) := List Char → Option (α × List Char)

/-- `re.search`: leftmost match; returns (start, capture, end). -/
def searchGo (f : Mtch α) : Nat → List Char → Nat → Option (Nat × α × Nat)
  | 0, _, _ => none
  | fuel + 1, s, pos =>
    if pos < s.length then
      match f (s.drop pos) with
      | some (a, r) => some (pos, a, s.length - r.length)
      | none => searchGo f fuel s (pos + 1)
    else none

def searchFirst (f : Mtch α) (s : List Char) : Option (Nat × α × Nat) :=
  searchGo f (s.length + 1) s 0

/-- `re.finditer`: successive non-overlapping leftmost matches
(every pattern used here consumes at least one character). -/
def scanGo (f : Mtch α) : Nat → List Char → Nat → List (Nat × α × Nat)
  | 0, _, _ => []
  | fuel + 1, s, pos =>
    if pos < s.length then
      match f (s.drop pos) with
      | some (a, r) => (pos, a, s.length - r.length) :: scanGo f fuel s (s.length - r.length)
      | none => scanGo f fuel s (pos + 1)
    else []

def scanAll (f : Mtch α) (s : List Char) : List (Nat × α × Nat) :=
  scanGo f (s.length + 1) s 0

/-! ### Key literals of the parser patterns -/

def idKeyS : String := "id"
def nameKeyS : String := "name"
def displayNameKeyS : String := "displayName"
def qualityKeyS : String := "quality"
def flagsKeyS : String := "flags"
def classsKeyS : String := "classs"
def subclassKeyS : String := "subclass"
def dropChanceKeyS : String := "dropChance"
def dropUChanceKeyS : String := "drop_chance"
def chanceKeyS : String := "chance"
def pctKeyS : String := "pct"
def percentKeyS : String := "percent"
def countQuotedS : String := "\"count\""
def outofQuotedS : String := "\"outof\""
def modesKeyS : String := "modes"
def stackKeyS : String := "stack"
def dataKeyS : String := "data"
def newListviewS : String := "new Listview"
def dropsLitS : String := "drops"
def containsLitS : String := "contains"
def varKwS : String := "var"
def windowKwS : String := "window."

/-! ### Field matchers of `_parse_item_object` -/

/-- `['\"]id['\"]\s*:\s*(\d+)`. -/
def mId : Mtch Nat := keyNat idKeyS.data

/-- `['\"]quality['\"]\s*:\s*(\d+)`. -/
def mQuality : Mtch Nat := keyNat qualityKeyS.data

/-- `['\"]classs['\"]\s*:\s*(\d+)`. -/
def mClasss : Mtch Nat := keyNat classsKeyS.data

/-- `['\"]subclass['\"]\s*:\s*(\d+)`. -/
def mSubclass : Mtch Nat := keyNat subclassKeyS.data

/-- `['\"](?:dropChance|drop_chance|chance|pct|percent)['\"]\s*:\s*([0-9]+(?:\.[0-9]+)?)`
with `re.I`; the value must be a bare numeric literal (a quoted value does
not match).  Alternatives are tried in the pattern's order. -/
def mChance : Mtch ℚ := fun cs =>
  (quoteCh cs).bind fun r1 =>
    (match litAtCI dropChanceKeyS.data r1 with
     | some r => some r
     | none =>
       match litAtCI dropUChanceKeyS.data r1 with
       | some r => some r
       | none =>
         match litAtCI chanceKeyS.data r1 with
         | some r => some r
         | none =>
           match litAtCI pctKeyS.data r1 with
           | some r => some r
           | none => litAtCI percentKeyS.data r1).bind fun r2 =>
      (quoteCh r2).bind fun r3 =>
        (wsExpect ':' r3).bind fun r4 => ratNum (skipWs r4)

/-- `"count"\s*:\s*(-?\d+)` (double quotes required by the pattern). -/
def mCountD : Mtch Int := fun cs =>
  (litAt countQuotedS.data cs).bind fun r1 =>
    (wsExpect ':' r1).bind fun r2 => intNum (skipWs r2)

/-- `"outof"\s*:\s*(\d+)`. -/
def mOutofD : Mtch Nat := fun cs =>
  (litAt outofQuotedS.data cs).bind fun r1 =>
    (wsExpect ':' r1).bind fun r2 => natNum (skipWs r2)

/-- `"count"\s*:\s*(-?\d+)\s*,\s*"outof"\s*:\s*(\d+)`
(the adjacent pair searched by `extract_percent_from_modes`). -/
def mPairAdj : Mtch (Int × Nat) := fun cs =>
  (mCountD cs).bind fun (c, r1) =>
    (wsExpect ',' r1).bind fun r2 =>
      (litAt outofQuotedS.data (skipWs r2)).bind fun r3 =>
        (wsExpect ':' r3).bind fun r4 =>
          (natNum (skipWs r4)).map fun (o, r5) => ((c, o), r5)

/-- `["\']?modes["\']?\s*:\s*\{`. -/
def mModesKey : Mtch Unit := fun cs =>
  (litAt modesKeyS.data (quoteOpt cs)).bind fun r1 =>
    (wsExpect ':' (quoteOpt r1)).bind fun r2 =>
      (wsExpect '\x7b' r2).map fun r3 => ((), r3)

/-- One entry of the modes table:
`["\']?(\d+)["\']?\s*:\s*\{[^}]*?"count"\s*:\s*(-?\d+)[^}]*?"outof"\s*:\s*(-?\d+)[^}]*?\}`
(`re.S`); the key is captured as its digit string. -/
def mEntry : Mtch (List Char × Int × Int) := fun cs =>
  let r0 := quoteOpt cs
  let p := takeDigits r0
  if p.1.isEmpty then none
  else
    (wsExpect ':' (quoteOpt p.2)).bind fun r1 =>
      (wsExpect '\x7b' r1).bind fun r2 =>
        (lazyLit '\x7d' countQuotedS.data r2).bind fun r3 =>
          (wsExpect ':' r3).bind fun r4 =>
            (intNum (skipWs r4)).bind fun (c, r5) =>
              (lazyLit '\x7d' outofQuotedS.data r5).bind fun r6 =>
                (wsExpect ':' r6).bind fun r7 =>
                  (intNum (skipWs r7)).bind fun (o, r8) =>
                    (lazyClose r8).map fun r9 => ((p.1, c, o), r9)

/-- A single-quoted string token `'(?:[^']|\\\\')*'` (greedy with
first-alternative preference: `[^']` covers every character except the
quote, so the token is the run up to the next quote), captured raw with
its quotes. -/
def sQuoted : Mtch (List Char) := fun cs =>
  match cs with
  | '\'' :: r =>
    let p := splitAtQuote r
    match p.2 with
    | '\'' :: rest => some ('\'' :: p.1 ++ ['\''], rest)
    | _ => none
  | _ => none
where
  splitAtQuote : List Char → List Char × List Char
    | [] => ([], [])
    | c :: r =>
      if c = '\'' then ([], c :: r)
      else
        let p := splitAtQuote r
        (c :: p.1, p.2)

/-- A double-quoted string token `\"(?:[^\"\\\"]|\\\\\")*\"`: a run of
characters other than `"` and `\`, allowing the two-character-escape
alternative, up to the closing quote; captured raw with its quotes. -/
def dQuoted : Mtch (List Char) := fun cs =>
  match cs with
  | '"' :: r =>
    (body r).bind fun (b, rest) =>
      match rest with
      | '"' :: rest2 => some ('"' :: b ++ ['"'], rest2)
      | _ => none
  | _ => none
where
  body : List Char → Option (List Char × List Char)
    | [] => some ([], [])
    | '\\' :: '\\' :: '"' :: r =>
      (body r).map fun p => ('\\' :: '\\' :: '"' :: p.1, p.2)
    | c :: r =>
      if c = '"' || c = '\\' then some ([], c :: r)
      else (body r).map fun p => (c :: p.1, p.2)

/-- `['\"](?:name|displayName)['\"]\s*:\s*('...'|\"...\")` (`re.S`),
capturing the raw quoted token. -/
def mName : Mtch (List Char) := fun cs =>
  (quoteCh cs).bind fun r1 =>
    (match litAt nameKeyS.data r1 with
     | some r => some r
     | none => litAt displayNameKeyS.data r1).bind fun r2 =>
      (quoteCh r2).bind fun r3 =>
        (wsExpect ':' r3).bind fun r4 =>
          let r5 := skipWs r4
          match sQuoted r5 with
          | some p => some p
          | none => dQuoted r5

/-- `\{[^}]*\}` (raw capture). -/
def braceTok : Mtch (List Char) := fun cs =>
  match cs with
  | '\x7b' :: r =>
    (go r).map fun p => ('\x7b' :: p.1, p.2)
  | _ => none
where
  go : List Char → Option (List Char × List Char)
    | [] => none
    | c :: r =>
      if c = '\x7d' then some ([c], r)
      else (go r).map fun p => (c :: p.1, p.2)

/-- `\[[^\]]*\]` (raw capture). -/
def brackTok : Mtch (List Char) := fun cs =>
  match cs with
  | '[' :: r =>
    (go r).map fun p => ('[' :: p.1, p.2)
  | _ => none
where
  go : List Char → Option (List Char × List Char)
    | [] => none
    | c :: r =>
      if c = ']' then some ([c], r)
      else (go r).map fun p => (c :: p.1, p.2)

/-- `[0-9]+` as a raw capture. -/
def digitTok : Mtch (List Char) := fun cs =>
  let p := takeDigits cs
  if p.1.isEmpty then none else some (p.1, p.2)

/-- `['\"]flags['\"]\s*:\s*('...'|\"...\"|\{[^}]*\}|\[[^\]]*\]|[0-9]+)`
(`re.S`), alternatives in the pattern's order, raw capture. -/
def mFlags : Mtch (List Char) := fun cs =>
  (quoteCh cs).bind fun r1 =>
    (litAt flagsKeyS.data r1).bind fun r2 =>
      (quoteCh r2).bind fun r3 =>
        (wsExpect ':' r3).bind fun r4 =>
          let r5 := skipWs r4
          match sQuoted r5 with
          | some p => some p
          | none =>
            match dQuoted r5 with
            | some p => some p
            | none =>
              match braceTok r5 with
              | some p => some p
              | none =>
                match brackTok r5 with
                | some p => some p
                | none => digitTok r5

/-- `(?:['\"]?stack['\"]?)\s*:\s*\[\s*(\d+)\s*,\s*(\d+)\s*\]`. -/
def mStack2 : Mtch (Nat × Nat) := fun cs =>
  (litAt stackKeyS.data (quoteOpt cs)).bind fun r1 =>
    (wsExpect ':' (quoteOpt r1)).bind fun r2 =>
      (wsExpect '[' r2).bind fun r3 =>
        (natNum (skipWs r3)).bind fun (a, r4) =>
          (wsExpect ',' r4).bind fun r5 =>
            (natNum (skipWs r5)).bind fun (b, r6) =>
              (wsExpect ']' r6).map fun r7 => ((a, b), r7)

/-- `(?:['\"]?stack['\"]?)\s*:\s*\[\s*(\d+)\s*\]`. -/
def mStack1 : Mtch Nat := fun cs =>
  (litAt stackKeyS.data (quoteOpt cs)).bind fun r1 =>
    (wsExpect ':' (quoteOpt r1)).bind fun r2 =>
      (wsExpect '[' r2).bind fun r3 =>
        (natNum (skipWs r3)).bind fun (a, r4) =>
          (wsExpect ']' r4).map fun r5 => (a, r5)

/-! ### `utils.clean_js_string` -/

/-- Sequential global replacement of the two-character sequence `a b`
by `rep` (Python `str.replace`, left to right, non-overlapping). -/
def repl2 (a b : Char) (rep : List Char) : List Char → List Char
  | [] => []
  | [x] => [x]
  | x :: y :: r =>
    if x = a && y = b then rep ++ repl2 a b rep r
    else x :: repl2 a b rep (y :: r)

/-- After `<`, `[^>]+>`: at least one non-`>` character up to the first
`>`; returns the remainder when the tag closes. -/
def findTagEnd : List Char → Option (List Char)
  | [] => none
  | c :: r => if c = '>' then none else tagGo r
where
  tagGo : List Char → Option (List Char)
    | [] => none
    | c :: r => if c = '>' then some r else tagGo r

/-- `re.sub(r'<[^>]+>', '', s)` with fuel (each step consumes
at least one character). -/
def stripTagsGo : Nat → List Char → List Char
  | 0, _ => []
  | _ + 1, [] => []
  | fuel + 1, c :: r =>
    if c = '<' then
      match findTagEnd r with
      | some rest => stripTagsGo fuel rest
      | none => c :: stripTagsGo fuel r
    else c :: stripTagsGo fuel r

def stripTags (s : List Char) : List Char :=
  stripTagsGo (s.length + 1) s

/-- Squeeze runs of spaces to a single space (used after mapping every
whitespace character to a space, this implements `re.sub(r'\s+', ' ', s)`). -/
def squeezeSp : List Char → List Char
  | [] => []
  | [x] => [x]
  | x :: y :: r =>
    if x = ' ' && y = ' ' then squeezeSp (y :: r)
    else x :: squeezeSp (y :: r)

def dropWsL : List Char → List Char
  | [] => []
  | c :: r => if isWsCh c then dropWsL r else c :: r

/-- Python `str.strip()` (whitespace at both ends). -/
def stripEnds (s : List Char) : List Char :=
  (dropWsL (dropWsL s.reverse).reverse)

/-- `utils.clean_js_string(s)`: strip one enclosing quote pair, unescape
`\n \r \t \" \' \\`, strip HTML tags, collapse whitespace runs, strip. -/
def clean_js_string (s : List Char) : List Char :=
  let s1 :=
    match s with
    | c :: r =>
      if 2 ≤ s.length && s.getLast? = some c && (c = '"' || c = '\'') then r.dropLast
      else s
    | [] => []
  let s2 := repl2 '\\' 'n' [' '] s1
  let s3 := repl2 '\\' 'r' [' '] s2
  let s4 := repl2 '\\' 't' [' '] s3
  let s5 := repl2 '\\' '"' ['"'] s4
  let s6 := repl2 '\\' '\'' ['\''] s5
  let s7 := repl2 '\\' '\\' ['\\'] s6
  let s8 := stripTags s7
  let s9 := squeezeSp (s8.map fun c => if isWsCh c then ' ' else c)
  stripEnds s9

/-! ### Drop-chance resolution (`extract_percent_from_modes` and the
strategies inside `_parse_item_object`) -/

/-- `100 * count / outof` as an exact rational
(the source computes `(float(cnt) / float(outof)) * 100.0`). -/
def pctQ (c : Int) (o : Int) : ℚ := (c : ℚ) / (o : ℚ) * 100

/-- Python `round(x, 2)` on the exact value: round half to even at two
decimal places. -/
def pyRound2 (q : ℚ) : ℚ :=
  let s := q * 100
  let f : ℤ := s.floor
  let r := s - (f : ℚ)
  let n : ℤ :=
    if r < 1 / 2 then f
    else if 1 / 2 < r then f + 1
    else if f % 2 = 0 then f else f + 1
  (n : ℚ) / 100

/-- First adjacent `"count"/"outof"` pair at depth 1 that passes the
validity check (`outof > 0 and cnt >= 0`); the loop at the top of
`extract_percent_from_modes`. -/
def topPairGo (s : List Char) : List (Nat × (Int × Nat) × Nat) → Option (Int × Nat)
  | [] => none
  | (pos, (c, o), _) :: rest =>
    if compute_depth_at s pos = 1 && decide (0 < o) && decide (0 ≤ c) then some (c, o)
    else topPairGo s rest

def topPairAdj (s : List Char) : Option (Int × Nat) :=
  topPairGo s (scanAll mPairAdj s)

/-- The resolved interior of the `modes: { ... }` block: first
`["\']?modes["\']?\s*:\s*\{` match, `find('{', mm.end()-1)`, then
`find_matching_bracket`. -/
def modesBodyOf (s : List Char) : Option (List Char) :=
  match searchFirst mModesKey s with
  | none => none
  | some (_, _, e) =>
    match findCharFrom s '\x7b' (e - 1) with
    | none => none
    | some start =>
      match fmbOpt s start '\x7b' '\x7d' with
      | none => none
      | some endI => some (slice s (start + 1) endI)

/-- Python dict insertion: an existing key is updated in place, a new key
is appended. -/
def dInsert : List (List Char × Int × Int) → List Char → Int × Int →
    List (List Char × Int × Int)
  | [], k, v => [(k, v)]
  | (k', v') :: rest, k, v =>
    if k' = k then (k, v) :: rest else (k', v') :: dInsert rest k v

def dLookup (l : List (List Char × Int × Int)) (k : List Char) : Option (Int × Int) :=
  match l with
  | [] => none
  | (k', v') :: rest => if k' = k then some v' else dLookup rest k

/-- The `entries` dict of `extract_percent_from_modes`: every pattern
match over the modes body, keeping those passing the validity check
(`outof > 0 and cnt >= 0`), with dict-overwrite semantics. -/
def collectEntries (body : List Char) : List (List Char × Int × Int) :=
  (scanAll mEntry body).foldl
    (fun acc m =>
      let e := m.2.1
      if 0 < e.2.2 ∧ 0 ≤ e.2.1 then dInsert acc e.1 e.2 else acc)
    []

/-- `max(entries.items(), key=outof)`: Python keeps the first maximal
element, replacing only on strictly greater. -/
def maxByOutof : List (List Char × Int × Int) → (List Char × Int × Int) →
    (List Char × Int × Int)
  | [], best => best
  | e :: rest, best => maxByOutof rest (if best.2.2 < e.2.2 then e else best)

def zeroKey : List Char := ['0']

/-- `parser.extract_percent_from_modes(obj_str)`. -/
def extract_percent_from_modes (s : List Char) : Option ℚ :=
  let top := topPairAdj s
  match modesBodyOf s with
  | none => top.map fun p => pctQ p.1 (p.2 : Int)
  | some body =>
    match collectEntries body with
    | [] => top.map fun p => pctQ p.1 (p.2 : Int)
    | e :: rest =>
      match dLookup (e :: rest) zeroKey with
      | some (c, o) => some (pctQ c o)
      | none =>
        let be := maxByOutof rest e
        some (pctQ be.2.1 be.2.2)

/-! ### `_parse_item_object` -/

/-- First `['\"](?:dropChance|...)['\"]` explicit-percentage match. -/
def chanceFirst (s : List Char) : Option ℚ :=
  (searchFirst mChance s).map fun m => m.2.1

def countList (s : List Char) : List (Nat × Int) :=
  (scanAll mCountD s).map fun m => (m.1, m.2.1)

def outofList (s : List Char) : List (Nat × Nat) :=
  (scanAll mOutofD s).map fun m => (m.1, m.2.1)

/-- The first `"outof"` match strictly after position `ci` that lies at
depth 1 (matches before or at `ci`, and matches after `ci` at other
depths, are skipped). -/
def firstOutAfter (s : List Char) : List (Nat × Nat) → Nat → Option (Nat × Nat)
  | [], _ => none
  | (oi, ov) :: rest, ci =>
    if ci < oi then
      if compute_depth_at s oi = 1 then some (oi, ov) else firstOutAfter s rest ci
    else firstOutAfter s rest ci

/-- The top-level count/outof strategy of `_parse_item_object`: scan the
`"count"` matches in order; for each one at depth 1, take the first
depth-1 `"outof"` match after it; on a valid pair return the percentage,
otherwise move to the next `"count"` match. -/
def tlpGo (s : List Char) (outs : List (Nat × Nat)) : List (Nat × Int) → Option ℚ
  | [] => none
  | (ci, cv) :: rest =>
    if compute_depth_at s ci = 1 then
      match firstOutAfter s outs ci with
      | some (_, ov) =>
        if 0 < ov ∧ 0 ≤ cv then some (pctQ cv (ov : Int)) else tlpGo s outs rest
      | none => tlpGo s outs rest
    else tlpGo s outs rest

def topLevelPair (s : List Char) : Option ℚ :=
  tlpGo s (outofList s) (countList s)

/-- The drop-chance strategy chain of `_parse_item_object`: explicit
field (rounded to 2 places), then the depth-1 count/outof pair, then
`extract_percent_from_modes` (the `except` fallbacks of the source are
unreachable in this total embedding). -/
def resolveDropChance (s : List Char) : Option ℚ :=
  match chanceFirst s with
  | some v => some (pyRound2 v)
  | none =>
    match topLevelPair s with
    | some v => some v
    | none => extract_percent_from_modes s

/-- The stack min/max extraction of `_parse_item_object`: the
two-element form is tried first, then the single-element form. -/
def stackOf (s : List Char) : Option Nat × Option Nat :=
  match searchFirst mStack2 s with
  | some (_, (a, b), _) => (some a, some b)
  | none =>
    match searchFirst mStack1 s with
    | some (_, v, _) => (some v, some v)
    | none => (none, none)

/-- The record produced by `_parse_item_object` for one object substring. -/
structure DecodedItem where
  id : Nat
  name : List Char
  quality : Nat
  flags : List Char
  classs : Option Nat
  subclass : Option Nat
  drop_chance : Option ℚ
  min_count : Option Nat
  max_count : Option Nat
deriving DecidableEq, Repr

/-- `parser._parse_item_object(obj_str)`: `None` exactly when no `id`
field parses; every other field failure degrades to its default. -/
def parse_item_object (s : List Char) : Option DecodedItem :=
  match searchFirst mId s with
  | none => none
  | some (_, i, _) =>
    some
      { id := i
        name :=
          match searchFirst mName s with
          | some (_, raw, _) => clean_js_string raw
          | none => []
        quality :=
          match searchFirst mQuality s with
          | some (_, q, _) => q
          | none => 0
        flags :=
          match searchFirst mFlags s with
          | some (_, raw, _) => clean_js_string raw
          | none => []
        classs := (searchFirst mClasss s).map fun m => m.2.1
        subclass := (searchFirst mSubclass s).map fun m => m.2.1
        drop_chance := resolveDropChance s
        min_count := (stackOf s).1
        max_count := (stackOf s).2 }

/-! ### Configuration constants (`utils/config.py`) -/

/-- The item-ID ceiling imported by `parser.py` as `MAX_ITEM_ID`
(the value `config.py` assigns for the Legion expansion, 157831). -/
def MAX_ITEM_ID : Int := 157831

/-- `config.EXCLUDED_ITEM_IDS`. -/
def EXCLUDED_ITEM_IDS : List Int :=
  [124124, 138482, 138786, 141689, 141690, 147579, 138781, 138782,
   140220, 140221, 140222, 140224, 140225, 140226, 140227, 144345,
   147869, 138019, -1275]

def QUEST_ITEM_CLASS : Nat := 12

def alchemyS : String := "alchemy"
def enchantingS : String := "enchanting"
def jewelcraftingS : String := "jewelcrafting"
def inscriptionS : String := "inscription"
def leatherworkingS : String := "leatherworking"
def blacksmithingS : String := "blacksmithing"
def engineeringS : String := "engineering"
def tailoringS : String := "tailoring"
def herbalismS : String := "herbalism"
def cookingS : String := "cooking"

/-- `config.PROFESSIONS` (an identity mapping; iteration order is the
dict's insertion order). -/
def PROFESSIONS : List (List Char × List Char) :=
  [(alchemyS.data, alchemyS.data), (enchantingS.data, enchantingS.data),
   (jewelcraftingS.data, jewelcraftingS.data), (inscriptionS.data, inscriptionS.data),
   (leatherworkingS.data, leatherworkingS.data), (blacksmithingS.data, blacksmithingS.data),
   (engineeringS.data, engineeringS.data), (tailoringS.data, tailoringS.data),
   (herbalismS.data, herbalismS.data), (cookingS.data, cookingS.data)]

/-! ### Enrichment and filtering of decoded items (the final loop of
`parse_npc_loot_data` / `parse_object_loot_data`) -/

/-- Python `pat in hay` (substring test). -/
def containsSub (pat : List Char) : List Char → Bool
  | [] => (litAt pat []).isSome
  | c :: r => (litAt pat (c :: r)).isSome || containsSub pat r

def toLowerL (s : List Char) : List Char := s.map Char.toLower

def recipeMarkS : String := "recipe: "
def questItemS : String := "quest item"
def questS : String := "quest"

/-- The recipe/profession loop: first profession whose name occurs in the
lowercased item name, provided `"recipe: "` occurs too. -/
def recipeOf (lowerName : List Char) : Bool × Option (List Char) :=
  go PROFESSIONS
where
  go : List (List Char × List Char) → Bool × Option (List Char)
    | [] => (false, none)
    | (k, v) :: rest =>
      if containsSub recipeMarkS.data lowerName && containsSub k lowerName then (true, some v)
      else go rest

/-- The item record returned to callers of the loot parsers. -/
structure LootItem where
  id : Nat
  name : List Char
  quality : Nat
  is_recipe : Bool
  profession : Option (List Char)
  is_quest : Bool
  is_legendary : Bool
  drop_chance : Option ℚ
  min_count : Option Nat
  max_count : Option Nat
  classs : Option Nat
  subclass : Option Nat
deriving DecidableEq, Repr

/-- One iteration of the final filter/enrich loop: items above the
`MAX_ITEM_ID` ceiling or in the exclusion set are dropped; the rest are
enriched with recipe/quest/legendary flags. -/
def finalizeItem (d : DecodedItem) : Option LootItem :=
  if (d.id : Int) > MAX_ITEM_ID then none
  else if (d.id : Int) ∈ EXCLUDED_ITEM_IDS then none
  else
    let lowerName := toLowerL d.name
    let rp := recipeOf lowerName
    some
      { id := d.id
        name := d.name
        quality := d.quality
        is_recipe := rp.1
        profession := rp.2
        is_quest :=
          (d.classs = some QUEST_ITEM_CLASS) ||
            containsSub questItemS.data lowerName ||
            containsSub questS.data (toLowerL d.flags)
        is_legendary := 5 ≤ d.quality
        drop_chance := d.drop_chance
        min_count := d.min_count
        max_count := d.max_count
        classs := d.classs
        subclass := d.subclass }

/-! ### Block location (`parse_npc_loot_data`, `parse_object_loot_data`) -/

/-- `new Listview\s*\(`. -/
def mListview : Mtch Unit := fun cs =>
  (litAt newListviewS.data cs).bind fun r1 =>
    (wsExpect '(' r1).map fun r2 => ((), r2)

/-- The `m.end()` positions (index just after the `(`) of every
`new Listview\s*\(` occurrence. -/
def listviewSites (html : List Char) : List Nat :=
  (scanAll mListview html).map fun m => m.2.2

/-- Steps 1 of the Block Locator: first `{` after the call site, matched
with the bracket scanner; yields the block text and its absolute
start/end indices. -/
def blockAt (html : List Char) (sp : Nat) : Option (List Char × Nat × Nat) :=
  match findCharFrom html '\x7b' sp with
  | none => none
  | some bi =>
    match fmbOpt html bi '\x7b' '\x7d' with
    | none => none
    | some be => some (slice html bi (be + 1), bi, be)

/-- `id\s*:\s*['\"]drops['\"]` (the NPC family's exact label check). -/
def mDropsId : Mtch Unit := fun cs =>
  (litAt idKeyS.data cs).bind fun r1 =>
    (wsExpect ':' r1).bind fun r2 =>
      (quoteCh (skipWs r2)).bind fun r3 =>
        (litAt dropsLitS.data r3).bind fun r4 =>
          (quoteCh r4).map fun r5 => ((), r5)

def hasDropsId (block : List Char) : Bool :=
  (searchFirst mDropsId block).isSome

/-- Run of characters other than the two quote characters, together with
a flag telling whether the (case-insensitive) literal occurs in it. -/
def quoteFreeRun (pat : List Char) : List Char → Bool × List Char
  | [] => (false, [])
  | c :: r =>
    if c = '"' || c = '\'' then (false, c :: r)
    else
      let p := quoteFreeRun pat r
      ((litAtCI pat (c :: r)).isSome || p.1, p.2)

/-- `id\s*:\s*['\"][^'\"]*(contains)[^'\"]*['\"]` with `re.I` (the
object/item family's substring label check): some quote-free segment
containing `contains`, closed by a quote. -/
def mContainsId : Mtch Unit := fun cs =>
  (litAtCI idKeyS.data cs).bind fun r1 =>
    (wsExpect ':' r1).bind fun r2 =>
      (quoteCh (skipWs r2)).bind fun r3 =>
        let p := quoteFreeRun containsLitS.data r3
        if p.1 then (quoteCh p.2).map fun r4 => ((), r4) else none

def hasContainsId (block : List Char) : Bool :=
  (searchFirst mContainsId block).isSome

/-- `data\s*:\s*\[`. -/
def mDataArr : Mtch Unit := fun cs =>
  (litAt dataKeyS.data cs).bind fun r1 =>
    (wsExpect ':' r1).bind fun r2 =>
      (wsExpect '[' r2).map fun r3 => ((), r3)

/-- How the `data` field is written: an inline array literal or a bare
identifier. -/
inductive DataRef
  | inline
  | ident (v : List Char)
deriving DecidableEq, Repr

def isIdentCh (c : Char) : Bool :=
  ('A' ≤ c && c ≤ 'Z') || ('a' ≤ c && c ≤ 'z') || isDigitCh c ||
    c = '_' || c = '$' || c = '.'

def takeIdent : List Char → List Char × List Char
  | [] => ([], [])
  | c :: r =>
    if isIdentCh c then
      let p := takeIdent r
      (c :: p.1, p.2)
    else ([], c :: r)

/-- `data\s*:\s*(\[|[A-Za-z0-9_\$\.]+)` (the `mdata` search of the
object/item family). -/
def mMData : Mtch DataRef := fun cs =>
  (litAt dataKeyS.data cs).bind fun r1 =>
    (wsExpect ':' r1).bind fun r2 =>
      match skipWs r2 with
      | '[' :: r3 => some (DataRef.inline, r3)
      | r3 =>
        let p := takeIdent r3
        if p.1.isEmpty then none else some (DataRef.ident p.1, p.2)

/-- `['\"]KEY` tail of the variable-assignment pattern:
`VARNAME\s*=\s*\[` case-insensitively. -/
def tailAssign (v : List Char) (cs : List Char) : Option (List Char) :=
  (litAtCI v cs).bind fun r1 =>
    (wsExpect '=' r1).bind fun r2 => wsExpect '[' r2

/-- After `var` and one whitespace character: `\s*` then the tail. -/
def wsTail (v : List Char) : List Char → Option (List Char)
  | [] => tailAssign v []
  | c :: r => if isWsCh c then wsTail v r else tailAssign v (c :: r)

/-- `var\s+VARNAME\s*=\s*\[` after the `var` literal. -/
def ws1Tail (v : List Char) : List Char → Option (List Char)
  | [] => none
  | c :: r => if isWsCh c then wsTail v r else none

/-- `(?:var\s+|window\.)?VARNAME\s*=\s*\[` with `re.I`, alternatives in
the pattern's order. -/
def varAssignMatch (v : List Char) (cs : List Char) : Option (List Char) :=
  match (litAtCI varKwS.data cs).bind (ws1Tail v) with
  | some r => some r
  | none =>
    match (litAtCI windowKwS.data cs).bind (tailAssign v) with
    | some r => some r
    | none => tailAssign v cs

/-- The variable-assignment pattern as a matcher. -/
def vaM (v : List Char) : Mtch Unit := fun cs =>
  (varAssignMatch v cs).map fun r => ((), r)

/-- `pat.search(html)` for the variable-assignment pattern: position of
the leftmost match. -/
def searchVA (v : List Char) (s : List Char) : Option Nat :=
  (searchFirst (vaM v) s).map fun m => m.1

/-- `html.find('[', var_idx)` followed by bracket matching: the text of
the array literal assigned to the variable. -/
def arrTextFrom (html : List Char) (vi : Nat) : Option (List Char) :=
  match findCharFrom html '[' vi with
  | none => none
  | some as_ =>
    match fmbOpt html as_ '[' ']' with
    | none => none
    | some ae => some (slice html (as_ + 1) ae)

/-- Step 3 of the object/item-family Block Locator: resolve the `data`
field to its array text.  An inline `[` is delimited in the block; a bare
identifier is looked up as an assignment — in the source's order: first
across the full document, then (only when that fails, where it can no
longer succeed) in the ±5000-character window around the block. -/
def resolveDataStr (html block : List Char) (bi be : Nat) : Option (List Char) :=
  match searchFirst mMData block with
  | none => none
  | some (ms, ref, _) =>
    match ref with
    | DataRef.inline =>
      match findCharFrom block '[' ms with
      | none => none
      | some ds =>
        match fmbOpt block ds '[' ']' with
        | none => none
        | some de => some (slice block (ds + 1) de)
    | DataRef.ident v =>
      match searchVA v html with
      | some vi => arrTextFrom html vi
      | none =>
        let ss := bi - 5000
        let se := min html.length (be + 5000)
        match searchVA v (slice html ss se) with
        | none => none
        | some wi => arrTextFrom html (ss + wi)

/-- Decode every object substring of a resolved data-array body. -/
def decodeObjs (ds : List Char) : List DecodedItem :=
  (extract_objects_from_array_str ds).filterMap parse_item_object

/-- One candidate of `parse_npc_loot_data`: the block must pass the exact
`drops` label check, have an inline `data: [...]` array, and decode to at
least one item. -/
def processNpcBlock (html : List Char) (sp : Nat) : Option (List DecodedItem) :=
  match blockAt html sp with
  | none => none
  | some (block, _, _) =>
    if hasDropsId block then
      match searchFirst mDataArr block with
      | none => none
      | some (dk, _, _) =>
        match findCharFrom block '[' dk with
        | none => none
        | some ds =>
          match fmbOpt block ds '[' ']' with
          | none => none
          | some de =>
            let cl := decodeObjs (slice block (ds + 1) de)
            if cl.isEmpty then none else some cl
    else none

def collectNpcCandidates (html : List Char) : List (List DecodedItem) :=
  (listviewSites html).filterMap (processNpcBlock html)

/-- One candidate of `parse_object_loot_data` / `parse_item_loot_data`
(the two loops are textually identical): blocks failing the `contains`
substring check are still processed when they contain an inline
`data: [` array; the flag records whether the label check passed. -/
def processObjBlock (html : List Char) (sp : Nat) : Option (List DecodedItem × Bool) :=
  match blockAt html sp with
  | none => none
  | some (block, bi, be) =>
    if !hasContainsId block && (searchFirst mDataArr block).isNone then none
    else
      match resolveDataStr html block bi be with
      | none => none
      | some ds =>
        let cl := decodeObjs ds
        if cl.isEmpty then none else some (cl, hasContainsId block)

def collectObjCandidates (html : List Char) : List (List DecodedItem × Bool) :=
  (listviewSites html).filterMap (processObjBlock html)

/-- Python `max(candidates, key=len)`: the first list of maximal length
(replacement only on strictly greater). -/
def maxByLenGo (best : List α) : List (List α) → List α
  | [] => best
  | c :: rest => maxByLenGo (if best.length < c.length then c else best) rest

def maxByLen : List (List α) → List α
  | [] => []
  | c :: rest => maxByLenGo c rest

/-- Diagnostics printed by the parsers (wording abstracted; severity and
multiplicity are what the spec makes contractual). -/
inductive Diag
  | npcNotFound (n : Nat)
  | objNotFound (n : Nat)
deriving DecidableEq, Repr

/-- `parser.parse_npc_loot_data(html, npc_id)`: the items together with
the warnings printed. -/
def parse_npc_loot_data (html : List Char) (npc_id : Nat) :
    List LootItem × List Diag :=
  let loot := maxByLen (collectNpcCandidates html)
  if loot.isEmpty then ([], [Diag.npcNotFound npc_id])
  else (loot.filterMap finalizeItem, [])

/-- Selection rule of `parse_object_loot_data`: among candidates passing
the `contains` check the largest wins; otherwise the largest overall. -/
def selectObjLoot (cands : List (List DecodedItem × Bool)) : List DecodedItem :=
  match cands.filter (fun c => c.2) with
  | [] => maxByLen (cands.map Prod.fst)
  | c :: rest => maxByLen ((c :: rest).map Prod.fst)

/-- `parser.parse_object_loot_data(html, obj_id)`. -/
def parse_object_loot_data (html : List Char) (obj_id : Nat) :
    List LootItem × List Diag :=
  let loot := selectObjLoot (collectObjCandidates html)
  if loot.isEmpty then ([], [Diag.objNotFound obj_id])
  else (loot.filterMap finalizeItem, [])

/-! ### Concrete documents and object texts used as witnesses -/

def ex7S : String := "\x7b\"a\x7d\":1\x7d"
def ex7dS : String := "\x7b\"a\":1"
def ex41S : String := "\x7b\"modes\":\x7b\"0\":\x7b\"count\":10,\"outof\":1000\x7d,\"3\":\x7b\"count\":1,\"outof\":5\x7d\x7d\x7d"
def ex41BodyS : String := "\"0\":\x7b\"count\":10,\"outof\":1000\x7d,\"3\":\x7b\"count\":1,\"outof\":5\x7d"
def ex42S : String := "\x7b\"modes\":\x7b\"2\":\x7b\"count\":5,\"outof\":50\x7d,\"5\":\x7b\"count\":1,\"outof\":500\x7d\x7d\x7d"
def cx1S : String := "\x7b\"id\":5,\"chance\":\"5.5\",\"modes\":\x7b\"0\":\x7b\"count\":1,\"outof\":2\x7d\x7d\x7d"
def cx2S : String := "\x7b\"id\":1,\"chance\":5.5,\"modes\":\x7b\"0\":\x7b\"count\":1,\"outof\":2\x7d\x7d\x7d"
def st1S : String := "\x7b\"id\":1,\"stack\":[10,5]\x7d"
def st2S : String := "\x7b\"id\":1,\"stack\":[7]\x7d"
def tlS : String := "\x7b\"id\":3,\"count\":5,\"outof\":50\x7d"
def noidS : String := "\x7b\"name\":\"Orphan\",\"quality\":2\x7d"
def html1S : String := "new Listview(\x7bid:\"drops\",data: [\x7b\"id\":7\x7d]\x7d)"
def html0S : String := "new Listview(\x7bid:\"other\",data: [\x7b\"id\":7\x7d]\x7d)"
def htmlvS : String := "var lv = [\x7b\"id\":3\x7d] new Listview(\x7bid:\"contains\",data: lv\x7d)"
def obj7S : String := "\x7b\"id\":7\x7d"

/-- Packaging of the matcher's result from the relative offset of the
first zero-return of the depth. -/
def zmatch (z : Option Nat) (idx : Nat) : Int :=
  match z with
  | some j => ((idx + j : Nat) : Int)
  | none => -1

def chanceTextS : String := "\"chance\":\"5.5\""

/-- The item decoded and returned for the witness NPC document. -/
def item7 : LootItem :=
  { id := 7, name := [], quality := 0, is_recipe := false, profession := none,
    is_quest := false, is_legendary := false, drop_chance := none,
    min_count := none, max_count := none, classs := none, subclass := none }

def blk0S : String := "\x7bid:\"other\",data: [\x7b\"id\":7\x7d]\x7d"

def lvS : String := "lv"
def xxS : String := "x"

/-! ## Correctness of the bracket matcher (C7) -/

/-- Delimiter characters seen while inside a quoted string never change
the depth. -/
lemma scanStep_instr_depth (o c : Char) (d : Int) (q : Char) (e : Bool) (ch : Char) :
    (scanStep o c (d, some q, e) ch).1 = d := by
  simp only [scanStep]
  split_ifs <;> rfl

lemma zmatch_succ (z : Option Nat) (idx : Nat) :
    zmatch (z.map Nat.succ) idx = zmatch z (idx + 1) := by
  cases z with
  | none => rfl
  | some j => simp only [Option.map_some', zmatch]; omega

/-- The matcher loop agrees with the first return of the depth profile to
zero, from any start state at depth ≥ 1. -/
lemma fmbAux_eq_firstZero (o c : Char) :
    ∀ (cs : List Char) (idx : Nat) (st : ScanSt), 1 ≤ st.1 →
      fmbAux o c cs idx st = zmatch (firstZeroIdx o c cs st) idx := by
  intro cs
  induction cs with
  | nil => intro idx st _; rfl
  | cons ch rest ih =>
    intro idx st hst
    obtain ⟨d, q, e⟩ := st
    simp only [Prod.fst] at hst
    match q with
    | some q =>
      have hdep : (scanStep o c (d, some q, e) ch).1 = d := scanStep_instr_depth o c d q e ch
      have hne : ¬ (scanStep o c (d, some q, e) ch).1 = 0 := by omega
      simp only [fmbAux, firstZeroIdx]
      rw [if_neg hne, ih (idx + 1) _ (by omega), zmatch_succ]
    | none =>
      simp only [fmbAux, firstZeroIdx, scanStep]
      split_ifs with h1 h2 h3 h4 h5 h6 h7 <;>
        first
          | (exfalso; omega)
          | rfl
          | (rw [ih (idx + 1) _ (by simp; omega), zmatch_succ])

/-- Unfolding of `firstZeroIdx` on a cons cell. -/
lemma firstZero_cons (o c ch : Char) (rest : List Char) (st : ScanSt) :
    firstZeroIdx o c (ch :: rest) st =
      (if (scanStep o c st ch).1 = 0 then some 0
       else (firstZeroIdx o c rest (scanStep o c st ch)).map Nat.succ) := rfl

/-- From depth ≥ 1, the only step that can bring the depth to zero is the
closing delimiter (processed outside any string). -/
lemma scanStep_zero_char (o c : Char) (st : ScanSt) (ch : Char)
    (h1 : 1 ≤ st.1) (h0 : (scanStep o c st ch).1 = 0) : ch = c := by
  obtain ⟨d, q, e⟩ := st
  simp only [Prod.fst] at h1
  match q with
  | some q =>
    rw [scanStep_instr_depth] at h0
    omega
  | none =>
    simp only [scanStep] at h0
    split_ifs at h0 with hq hco hcc <;> simp only [Prod.fst] at h0
    · omega
    · omega
    · exact hcc
    · omega

/-- A step that does not hit depth zero keeps the depth ≥ 1. -/
lemma scanStep_depth_pos (o c : Char) (st : ScanSt) (ch : Char)
    (h1 : 1 ≤ st.1) (h2 : (scanStep o c st ch).1 ≠ 0) :
    1 ≤ (scanStep o c st ch).1 := by
  obtain ⟨d, q, e⟩ := st
  simp only [Prod.fst] at h1
  match q with
  | some q =>
    rw [scanStep_instr_depth] at *
    omega
  | none =>
    simp only [scanStep] at *
    split_ifs at * <;> simp only [Prod.fst] at * <;> omega

/-- When the scan first returns to depth zero at offset `j` (from a state
at depth ≥ 1), the character there is the closing delimiter. -/
lemma firstZeroIdx_char (o c : Char) :
    ∀ (cs : List Char) (st : ScanSt), 1 ≤ st.1 →
      ∀ j, firstZeroIdx o c cs st = some j → cs.getD j ' ' = c := by
  intro cs
  induction cs with
  | nil => intro st _ j h; simp [firstZeroIdx] at h
  | cons ch rest ih =>
    intro st hst j h
    rw [firstZero_cons] at h
    by_cases hP : (scanStep o c st ch).1 = 0
    · rw [if_pos hP] at h
      have hj : j = 0 := by simpa using h.symm
      subst hj
      simpa [List.getD] using scanStep_zero_char o c st ch hst hP
    · rw [if_neg hP] at h
      obtain ⟨j', hz, hj⟩ := Option.map_eq_some'.mp h
      subst hj
      simpa [List.getD] using ih _ (scanStep_depth_pos o c st ch hst hP) j' hz

/-- C7: for every text and every `startIndex` pointing at an occurrence
of the open delimiter, `find_matching_bracket` returns the index of the
delimiter that brings the depth back to zero — the scan being the
quote/escape machine `scanStep`, under which delimiter characters inside
quoted strings are inert — and returns the sentinel `-1` when the depth
never returns to zero before the end of the text.  Stated for delimiter
characters distinct from the two quote characters (the brackets this
repository matches). -/
theorem claim_C7_bracket_matcher (s : List Char) (i : Nat) (o c : Char) (t : List Char)
    (ho1 : o ≠ '"') (ho2 : o ≠ '\'')
    (hpt : s.drop i = o :: t) :
    find_matching_bracket s i o c =
        zmatch (firstZeroIdx o c (s.drop i) (0, none, false)) i ∧
      (∀ j, firstZeroIdx o c (s.drop i) (0, none, false) = some j →
        (s.drop i).getD j ' ' = c) ∧
      (∀ (d : Int) (q : Char) (e : Bool) (ch : Char),
        (scanStep o c (d, some q, e) ch).1 = d) := by
  have hso : scanStep o c ((0 : Int), (none : Option Char), false) o = (1, none, false) := by
    simp [scanStep, ho1, ho2]
  have hqo : ¬ ((o = '"' || o = '\'') = true) := by simp [ho1, ho2]
  refine ⟨?_, ?_, fun d q e ch => scanStep_instr_depth o c d q e ch⟩
  · show fmbAux o c (s.drop i) i (0, none, false) = _
    rw [hpt]
    simp only [fmbAux]
    rw [if_neg hqo]
    simp only [if_true, zero_add]
    rw [fmbAux_eq_firstZero o c t (i + 1) (1, none, false) (by simp)]
    rw [firstZero_cons, hso]
    have : ¬ (((1 : Int), (none : Option Char), false).1 = 0) := by simp
    rw [if_neg this, zmatch_succ]
  · intro j h
    rw [hpt, firstZero_cons, hso] at h
    have hne : ¬ (((1 : Int), (none : Option Char), false).1 = 0) := by simp
    rw [if_neg hne] at h
    obtain ⟨j', hz, hj⟩ := Option.map_eq_some'.mp h
    subst hj
    rw [hpt]
    simpa [List.getD] using firstZeroIdx_char o c t (1, none, false) (by simp) j' hz

/-- Witness for C7: the matcher at the concrete inputs — an object whose
string content holds a brace (`{"a}":1}` closes at index 7), and a
dangling open brace (`{"a":1` gives `-1`). -/
theorem claim_C7_bracket_matcher_witness :
    find_matching_bracket ex7S.data 0 '\x7b' '\x7d' = 7 ∧
      find_matching_bracket ex7dS.data 0 '\x7b' '\x7d' = -1 := by
  constructor
  · have h := claim_C7_bracket_matcher ex7S.data 0 '\x7b' '\x7d' (ex7S.data.drop 1)
      (by decide) (by decide) (by decide)
    rw [h.1]; decide
  · have h := claim_C7_bracket_matcher ex7dS.data 0 '\x7b' '\x7d' (ex7dS.data.drop 1)
      (by decide) (by decide) (by decide)
    rw [h.1]; decide

/-! ## The modes-table strategy (C4) -/

/-- Membership after a dict insertion comes from the inserted pair or
from the original dict. -/
lemma dInsert_mem (k : List Char) (v : Int × Int) (x : List Char × Int × Int) :
    ∀ l : List (List Char × Int × Int), x ∈ dInsert l k v → x = (k, v) ∨ x ∈ l := by
  intro l
  induction l with
  | nil => intro hx; simpa [dInsert] using hx
  | cons e rest ih =>
    intro hx
    by_cases hk : e.1 = k
    · have hd : dInsert (e :: rest) k v = (k, v) :: rest := by
        obtain ⟨k', v'⟩ := e
        simp only [dInsert]
        rw [if_pos hk]
      rw [hd] at hx
      rcases List.mem_cons.mp hx with h | h
      · exact Or.inl h
      · exact Or.inr (List.mem_cons_of_mem _ h)
    · have hd : dInsert (e :: rest) k v = e :: dInsert rest k v := by
        obtain ⟨k', v'⟩ := e
        simp only [dInsert]
        rw [if_neg hk]
      rw [hd] at hx
      rcases List.mem_cons.mp hx with h | h
      · exact Or.inr (by simp [h])
      · rcases ih h with h' | h'
        · exact Or.inl h'
        · exact Or.inr (List.mem_cons_of_mem _ h')

/-- Every entry the fold of `collectEntries` accumulates passes the
validity check. -/
lemma collectFold_valid (ms : List (Nat × (List Char × Int × Int) × Nat)) :
    ∀ (acc : List (List Char × Int × Int)),
      (∀ x ∈ acc, 0 ≤ x.2.1 ∧ 0 < x.2.2) →
      ∀ x ∈ ms.foldl
        (fun acc m =>
          let e := m.2.1
          if 0 < e.2.2 ∧ 0 ≤ e.2.1 then dInsert acc e.1 e.2 else acc) acc,
        0 ≤ x.2.1 ∧ 0 < x.2.2 := by
  induction ms with
  | nil => intro acc hacc x hx; exact hacc x hx
  | cons m rest ih =>
    intro acc hacc x hx
    simp only [List.foldl_cons] at hx
    by_cases hv : 0 < m.2.1.2.2 ∧ 0 ≤ m.2.1.2.1
    · rw [if_pos hv] at hx
      refine ih _ ?_ x hx
      intro y hy
      rcases dInsert_mem _ _ y _ hy with h | h
      · subst h; exact ⟨hv.2, hv.1⟩
      · exact hacc y h
    · rw [if_neg hv] at hx
      exact ih _ hacc x hx

/-- The selected entry of `maxByOutof` has the largest `outof` among the
running best and the remaining entries (ties keep the earlier entry). -/
lemma maxByOutof_ge (l : List (List Char × Int × Int)) :
    ∀ best, best.2.2 ≤ (maxByOutof l best).2.2 ∧
      ∀ x ∈ l, x.2.2 ≤ (maxByOutof l best).2.2 := by
  induction l with
  | nil => intro best; exact ⟨le_refl _, by simp⟩
  | cons e rest ih =>
    intro best
    simp only [maxByOutof]
    by_cases hlt : best.2.2 < e.2.2
    · rw [if_pos hlt]
      obtain ⟨h1, h2⟩ := ih e
      refine ⟨le_of_lt (lt_of_lt_of_le hlt h1), ?_⟩
      intro x hx
      rcases List.mem_cons.mp hx with h | h
      · subst h; exact h1
      · exact h2 x h
    · rw [if_neg hlt]
      obtain ⟨h1, h2⟩ := ih best
      refine ⟨h1, ?_⟩
      intro x hx
      rcases List.mem_cons.mp hx with h | h
      · subst h; omega
      · exact h2 x h

/-- Unfolding of `extract_percent_from_modes` when the modes block
resolves. -/
lemma extract_modes_eq (s body : List Char) (hbody : modesBodyOf s = some body) :
    extract_percent_from_modes s =
      (match collectEntries body with
       | [] => (topPairAdj s).map fun p => pctQ p.1 (p.2 : Int)
       | e :: rest =>
         match dLookup (e :: rest) zeroKey with
         | some (c, o) => some (pctQ c o)
         | none => some (pctQ (maxByOutof rest e).2.1 (maxByOutof rest e).2.2)) := by
  unfold extract_percent_from_modes
  rw [hbody]

unseal Rat.mul Rat.inv Rat.add Rat.sub in
/-- C4: the modes-table strategy collects only entries passing the
validity check (`count ≥ 0`, `outof > 0`); when an entry keyed `"0"`
exists in the collected dict its percentage `100·count/outof` is returned
regardless of the other entries; otherwise the entry with the largest
`outof` is used.  Concretely, `{"0":{count:10,outof:1000},"3":{count:1,outof:5}}`
resolves to 1 and `{"2":{count:5,outof:50},"5":{count:1,outof:500}}`
resolves to 1/5. -/
theorem claim_C4_modes_strategy :
    (∀ (body k : List Char) (c o : Int),
        (k, c, o) ∈ collectEntries body → 0 ≤ c ∧ 0 < o) ∧
      (∀ (s body : List Char) (c o : Int), modesBodyOf s = some body →
        dLookup (collectEntries body) zeroKey = some (c, o) →
        extract_percent_from_modes s = some (pctQ c o)) ∧
      (∀ (s body : List Char) (e : List Char × Int × Int)
          (rest : List (List Char × Int × Int)),
        modesBodyOf s = some body → collectEntries body = e :: rest →
        dLookup (e :: rest) zeroKey = none →
        extract_percent_from_modes s =
            some (pctQ (maxByOutof rest e).2.1 (maxByOutof rest e).2.2) ∧
          ∀ x ∈ e :: rest, x.2.2 ≤ (maxByOutof rest e).2.2) ∧
      extract_percent_from_modes ex41S.data = some 1 ∧
      extract_percent_from_modes ex42S.data = some (1 / 5) := by
  refine ⟨?_, ?_, ?_, by decide, by decide⟩
  · intro body k c o hm
    exact collectFold_valid (scanAll mEntry body) [] (by simp) (k, c, o) hm
  · intro s body c o hbody hlook
    cases hE : collectEntries body with
    | nil => rw [hE] at hlook; simp [dLookup] at hlook
    | cons e rest =>
      rw [hE] at hlook
      rw [extract_modes_eq s body hbody, hE]
      simp only [hlook]
  · intro s body e rest hbody hE hlook
    constructor
    · rw [extract_modes_eq s body hbody, hE]
      simp only [hlook]
    · intro x hx
      obtain ⟨h1, h2⟩ := maxByOutof_ge rest e
      rcases List.mem_cons.mp hx with h | h
      · subst h; exact h1
      · exact h2 x h

/-- Witness for C4: the general zero-key conjunct applied at the first
concrete modes table. -/
theorem claim_C4_modes_strategy_witness :
    extract_percent_from_modes ex41S.data = some (pctQ 10 1000) :=
  claim_C4_modes_strategy.2.1 ex41S.data ex41BodyS.data 10 1000 (by decide) (by decide)

/-! ## The top-level count/outof strategy (C5) -/

/-- What a successful `firstOutAfter` returns: a member of the match
list, strictly after the count position, at depth 1. -/
lemma firstOutAfter_spec (s : List Char) :
    ∀ (outs : List (Nat × Nat)) (ci oi ov : Nat),
      firstOutAfter s outs ci = some (oi, ov) →
      (oi, ov) ∈ outs ∧ ci < oi ∧ compute_depth_at s oi = 1 := by
  intro outs
  induction outs with
  | nil => intro ci oi ov h; simp [firstOutAfter] at h
  | cons p rest ih =>
    intro ci oi ov h
    obtain ⟨pi, pv⟩ := p
    simp only [firstOutAfter] at h
    by_cases hlt : ci < pi
    · rw [if_pos hlt] at h
      by_cases hd : compute_depth_at s pi = 1
      · rw [if_pos hd] at h
        obtain ⟨h1, h2⟩ := Prod.mk.injEq .. ▸ Option.some.inj h
        subst h1; subst h2
        exact ⟨List.mem_cons_self _ _, hlt, hd⟩
      · rw [if_neg hd] at h
        obtain ⟨h1, h2, h3⟩ := ih ci oi ov h
        exact ⟨List.mem_cons_of_mem _ h1, h2, h3⟩
    · rw [if_neg hlt] at h
      obtain ⟨h1, h2, h3⟩ := ih ci oi ov h
      exact ⟨List.mem_cons_of_mem _ h1, h2, h3⟩

/-- What a successful `tlpGo` returns: a valid depth-1 pair from the two
match lists, with the percentage computed from it. -/
lemma tlpGo_spec (s : List Char) (outs : List (Nat × Nat)) :
    ∀ (cl : List (Nat × Int)) (v : ℚ), tlpGo s outs cl = some v →
      ∃ (ci : Nat) (cv : Int) (oi ov : Nat),
        (ci, cv) ∈ cl ∧ (oi, ov) ∈ outs ∧ ci < oi ∧
        compute_depth_at s ci = 1 ∧ compute_depth_at s oi = 1 ∧
        0 < ov ∧ 0 ≤ cv ∧ v = pctQ cv (ov : Int) := by
  intro cl
  induction cl with
  | nil => intro v h; simp [tlpGo] at h
  | cons p rest ih =>
    intro v h
    obtain ⟨ci, cv⟩ := p
    simp only [tlpGo] at h
    by_cases hd : compute_depth_at s ci = 1
    · rw [if_pos hd] at h
      cases hfo : firstOutAfter s outs ci with
      | none =>
        simp only [hfo] at h
        obtain ⟨ci', cv', oi', ov', h1, h2, h3, h4, h5, h6, h7, h8⟩ := ih v h
        exact ⟨ci', cv', oi', ov', List.mem_cons_of_mem _ h1, h2, h3, h4, h5, h6, h7, h8⟩
      | some q =>
        obtain ⟨oi, ov⟩ := q
        simp only [hfo] at h
        by_cases hv : 0 < ov ∧ 0 ≤ cv
        · rw [if_pos hv] at h
          obtain ⟨hm, hlt, hdo⟩ := firstOutAfter_spec s outs ci oi ov hfo
          exact ⟨ci, cv, oi, ov, List.mem_cons_self _ _, hm, hlt, hd, hdo, hv.1, hv.2,
            (Option.some.inj h).symm⟩
        · rw [if_neg hv] at h
          obtain ⟨ci', cv', oi', ov', h1, h2, h3, h4, h5, h6, h7, h8⟩ := ih v h
          exact ⟨ci', cv', oi', ov', List.mem_cons_of_mem _ h1, h2, h3, h4, h5, h6, h7, h8⟩
    · rw [if_neg hd] at h
      obtain ⟨ci', cv', oi', ov', h1, h2, h3, h4, h5, h6, h7, h8⟩ := ih v h
      exact ⟨ci', cv', oi', ov', List.mem_cons_of_mem _ h1, h2, h3, h4, h5, h6, h7, h8⟩

/-- C5: when the explicit percentage field does not parse, a successful
top-level strategy returns `100·count/outof` for a `"count"` match and a
later `"outof"` match, both at depth 1 of the object and passing
`outof > 0`, `count ≥ 0`; and when no such valid depth-1 pair exists the
strategy fails and the resolver falls through to the modes-table
strategy. -/
theorem claim_C5_top_level_pair (s : List Char) (hch : chanceFirst s = none) :
    (∀ v, topLevelPair s = some v →
      resolveDropChance s = some v ∧
        ∃ (ci : Nat) (cv : Int) (oi ov : Nat),
          (ci, cv) ∈ countList s ∧ (oi, ov) ∈ outofList s ∧ ci < oi ∧
          compute_depth_at s ci = 1 ∧ compute_depth_at s oi = 1 ∧
          0 < ov ∧ 0 ≤ cv ∧ v = pctQ cv (ov : Int)) ∧
      ((¬ ∃ (ci : Nat) (cv : Int) (oi ov : Nat),
          (ci, cv) ∈ countList s ∧ (oi, ov) ∈ outofList s ∧ ci < oi ∧
          compute_depth_at s ci = 1 ∧ compute_depth_at s oi = 1 ∧
          0 < ov ∧ 0 ≤ cv) →
        topLevelPair s = none ∧
          resolveDropChance s = extract_percent_from_modes s) := by
  constructor
  · intro v hv
    refine ⟨?_, tlpGo_spec s (outofList s) (countList s) v hv⟩
    unfold resolveDropChance
    rw [hch, hv]
  · intro hno
    have htl : topLevelPair s = none := by
      cases htl : topLevelPair s with
      | none => rfl
      | some v =>
        obtain ⟨ci, cv, oi, ov, h1, h2, h3, h4, h5, h6, h7, _⟩ :=
          tlpGo_spec s (outofList s) (countList s) v htl
        exact absurd ⟨ci, cv, oi, ov, h1, h2, h3, h4, h5, h6, h7⟩ hno
    refine ⟨htl, ?_⟩
    unfold resolveDropChance
    rw [hch, htl]

/-- Witness for C5: the theorem at a concrete object whose explicit
field is absent (its depth-1 pair `count=5, outof=50` is found). -/
theorem claim_C5_top_level_pair_witness :
    (∀ v, topLevelPair tlS.data = some v →
      resolveDropChance tlS.data = some v ∧
        ∃ (ci : Nat) (cv : Int) (oi ov : Nat),
          (ci, cv) ∈ countList tlS.data ∧ (oi, ov) ∈ outofList tlS.data ∧ ci < oi ∧
          compute_depth_at tlS.data ci = 1 ∧ compute_depth_at tlS.data oi = 1 ∧
          0 < ov ∧ 0 ≤ cv ∧ v = pctQ cv (ov : Int)) ∧
      ((¬ ∃ (ci : Nat) (cv : Int) (oi ov : Nat),
          (ci, cv) ∈ countList tlS.data ∧ (oi, ov) ∈ outofList tlS.data ∧ ci < oi ∧
          compute_depth_at tlS.data ci = 1 ∧ compute_depth_at tlS.data oi = 1 ∧
          0 < ov ∧ 0 ≤ cv) →
        topLevelPair tlS.data = none ∧
          resolveDropChance tlS.data = extract_percent_from_modes tlS.data) :=
  claim_C5_top_level_pair tlS.data (by decide)

/-! ## The explicit-field strategy (C1) -/

unseal Rat.mul Rat.inv Rat.add Rat.sub in
/-- Counterexample to C1: the object text contains the explicit field
`"chance":"5.5"` (an accepted alias) and a modes table, yet the resolver
does not return 5.5: the quoted value is not recognised by the explicit
field pattern (which requires a bare numeric literal), so the modes table
answers and the drop chance is 50. -/
theorem claim_C1_counterexample :
    containsSub chanceTextS.data cx1S.data = true ∧
      chanceFirst cx1S.data = none ∧
      modesBodyOf cx1S.data ≠ none ∧
      (parse_item_object cx1S.data).map DecodedItem.drop_chance = some (some 50) ∧
      (50 : ℚ) ≠ 11 / 2 := by
  refine ⟨by decide, by decide, by decide, by decide, by decide⟩

/-- C1 (amended): the explicit field wins over the count/outof and modes
strategies only when its value is a bare numeric literal; then the
resolver returns it rounded to two decimal places.  (A quoted value such
as `"chance":"5.5"` is not recognised and the resolver falls through —
see the counterexample.) -/
theorem claim_C1_amended (s : List Char) (v : ℚ) (h : chanceFirst s = some v) :
    resolveDropChance s = some (pyRound2 v) := by
  unfold resolveDropChance
  rw [h]

unseal Rat.mul Rat.inv Rat.add Rat.sub in
/-- Witness for the amended C1: a bare `"chance":5.5` next to a modes
table resolves to `round(5.5, 2)`, the modes table being ignored. -/
theorem claim_C1_amended_witness :
    resolveDropChance cx2S.data = some (pyRound2 (11 / 2)) :=
  claim_C1_amended cx2S.data (11 / 2) (by decide)

/-! ## Stack-derived min/max counts (C6) -/

/-- Counterexample to C6: the decoded item of `{"id":1,"stack":[10,5]}`
has `min_count = 10 > 5 = max_count`; the invariant `min ≤ max` fails
because the two array entries are copied verbatim. -/
theorem claim_C6_counterexample :
    (parse_item_object st1S.data).map (fun d => (d.min_count, d.max_count)) =
        some (some 10, some 5) ∧
      ¬ (10 : Nat) ≤ 5 := by
  exact ⟨by decide, by decide⟩

/-- C6 (amended): `min_count`/`max_count` are copied from the stack
array — a two-element array gives `(first, second)`, a one-element array
gives `(value, value)`, no array gives `(none, none)` — so
`min_count ≤ max_count` is guaranteed only in the one-element case; for a
two-element array it holds exactly when the array is non-decreasing. -/
theorem claim_C6_amended (s : List Char) (d : DecodedItem)
    (hd : parse_item_object s = some d) :
    (match searchFirst mStack2 s with
     | some m => d.min_count = some m.2.1.1 ∧ d.max_count = some m.2.1.2
     | none =>
       match searchFirst mStack1 s with
       | some m => d.min_count = some m.2.1 ∧ d.max_count = some m.2.1
       | none => d.min_count = none ∧ d.max_count = none) ∧
      (searchFirst mStack2 s = none →
        ∀ a b, d.min_count = some a → d.max_count = some b → a ≤ b) := by
  have hfields : d.min_count = (stackOf s).1 ∧ d.max_count = (stackOf s).2 := by
    unfold parse_item_object at hd
    cases hid : searchFirst mId s with
    | none => rw [hid] at hd; simp at hd
    | some m =>
      rw [hid] at hd
      simp only [Option.some.injEq] at hd
      subst hd
      exact ⟨rfl, rfl⟩
  obtain ⟨hmin, hmax⟩ := hfields
  constructor
  · cases h2 : searchFirst mStack2 s with
    | some m =>
      obtain ⟨p1, ⟨a, b⟩, p3⟩ := m
      simp [hmin, hmax, stackOf, h2]
    | none =>
      cases h1 : searchFirst mStack1 s with
      | some m =>
        obtain ⟨p1, v, p3⟩ := m
        simp [hmin, hmax, stackOf, h2, h1]
      | none =>
        simp [hmin, hmax, stackOf, h2, h1]
  · intro h2 a b ha hb
    rw [hmin] at ha
    rw [hmax] at hb
    cases h1 : searchFirst mStack1 s with
    | some m =>
      obtain ⟨p1, v, p3⟩ := m
      rw [stackOf, h2, h1] at ha hb
      simp at ha hb
      omega
    | none =>
      rw [stackOf, h2, h1] at ha
      simp at ha

/-- Witness for the amended C6: the one-element stack `[7]` gives
`min = max = 7`. -/
theorem claim_C6_amended_witness :
    (match searchFirst mStack2 st2S.data with
     | some m =>
       DecodedItem.min_count
           { id := 1, name := [], quality := 0, flags := [], classs := none,
             subclass := none, drop_chance := none, min_count := some 7,
             max_count := some 7 } = some m.2.1.1 ∧
         DecodedItem.max_count
           { id := 1, name := [], quality := 0, flags := [], classs := none,
             subclass := none, drop_chance := none, min_count := some 7,
             max_count := some 7 } = some m.2.1.2
     | none =>
       match searchFirst mStack1 st2S.data with
       | some m =>
         DecodedItem.min_count
             { id := 1, name := [], quality := 0, flags := [], classs := none,
               subclass := none, drop_chance := none, min_count := some 7,
               max_count := some 7 } = some m.2.1 ∧
           DecodedItem.max_count
             { id := 1, name := [], quality := 0, flags := [], classs := none,
               subclass := none, drop_chance := none, min_count := some 7,
               max_count := some 7 } = some m.2.1
       | none =>
         DecodedItem.min_count
             { id := 1, name := [], quality := 0, flags := [], classs := none,
               subclass := none, drop_chance := none, min_count := some 7,
               max_count := some 7 } = none ∧
           DecodedItem.max_count
             { id := 1, name := [], quality := 0, flags := [], classs := none,
               subclass := none, drop_chance := none, min_count := some 7,
               max_count := some 7 } = none) ∧
      (searchFirst mStack2 st2S.data = none →
        ∀ a b,
          DecodedItem.min_count
              { id := 1, name := [], quality := 0, flags := [], classs := none,
                subclass := none, drop_chance := none, min_count := some 7,
                max_count := some 7 } = some a →
          DecodedItem.max_count
              { id := 1, name := [], quality := 0, flags := [], classs := none,
                subclass := none, drop_chance := none, min_count := some 7,
                max_count := some 7 } = some b → a ≤ b) :=
  claim_C6_amended st2S.data
    { id := 1, name := [], quality := 0, flags := [], classs := none,
      subclass := none, drop_chance := none, min_count := some 7,
      max_count := some 7 } (by decide)

/-! ## Objects without an id are dropped silently (C8) -/

/-- C8: an object substring with no parsable integer `id` field produces
no record (`None`, not a record with a null id), and decoding of the
other objects of the same array is unaffected: the decoded list of any
surrounding array is exactly the concatenation of the decoded lists of
the other objects. -/
theorem claim_C8_missing_id_dropped (s : List Char) (l1 l2 : List (List Char))
    (h : searchFirst mId s = none) :
    parse_item_object s = none ∧
      (l1 ++ s :: l2).filterMap parse_item_object =
        l1.filterMap parse_item_object ++ l2.filterMap parse_item_object := by
  have hp : parse_item_object s = none := by
    unfold parse_item_object
    rw [h]
  refine ⟨hp, ?_⟩
  simp [List.filterMap_append, List.filterMap_cons, hp]

unseal Rat.mul Rat.inv Rat.add Rat.sub in
/-- Witness for C8: an id-less object between two valid ones is simply
skipped. -/
theorem claim_C8_missing_id_dropped_witness :
    parse_item_object noidS.data = none ∧
      ([obj7S.data] ++ noidS.data :: [obj7S.data]).filterMap parse_item_object =
        [obj7S.data].filterMap parse_item_object ++
          [obj7S.data].filterMap parse_item_object :=
  claim_C8_missing_id_dropped noidS.data [obj7S.data] [obj7S.data] (by decide)

/-! ## Document-level behaviour (C9, C10, C2) -/

/-- Zeta-reduced form of `parse_npc_loot_data`. -/
lemma parse_npc_eq (html : List Char) (npc_id : Nat) :
    parse_npc_loot_data html npc_id =
      if (maxByLen (collectNpcCandidates html)).isEmpty then
        ([], [Diag.npcNotFound npc_id])
      else ((maxByLen (collectNpcCandidates html)).filterMap finalizeItem, []) := rfl

/-- C9: when no candidate block yields any decoded items, the NPC parse
returns an empty item sequence together with exactly one warning
diagnostic (and, being a total function, raises nothing). -/
theorem claim_C9_empty_candidates_warn (html : List Char) (npc_id : Nat)
    (h : collectNpcCandidates html = []) :
    parse_npc_loot_data html npc_id = ([], [Diag.npcNotFound npc_id]) := by
  rw [parse_npc_eq, h]
  rfl

/-- Witness for C9: a document whose only Listview block fails the
`drops` label check produces no candidates, an empty output and one
warning. -/
theorem claim_C9_empty_candidates_warn_witness :
    parse_npc_loot_data html0S.data 42 = ([], [Diag.npcNotFound 42]) :=
  claim_C9_empty_candidates_warn html0S.data 42 (by decide)

/-- C10: every item returned by the NPC loot parse has an id at most the
configured ceiling `MAX_ITEM_ID` and outside the configured exclusion set
`EXCLUDED_ITEM_IDS`; offending decoded objects are removed from the
selected candidate before the sequence is returned. -/
theorem claim_C10_id_ceiling_and_exclusions (html : List Char) (npc_id : Nat)
    (it : LootItem) (h : it ∈ (parse_npc_loot_data html npc_id).1) :
    (it.id : Int) ≤ MAX_ITEM_ID ∧ (it.id : Int) ∉ EXCLUDED_ITEM_IDS := by
  rw [parse_npc_eq] at h
  by_cases he : (maxByLen (collectNpcCandidates html)).isEmpty
  · rw [if_pos he] at h
    simp at h
  · rw [if_neg he] at h
    simp only at h
    obtain ⟨d, _, hfin⟩ := List.mem_filterMap.mp h
    unfold finalizeItem at hfin
    by_cases h1 : (d.id : Int) > MAX_ITEM_ID
    · rw [if_pos h1] at hfin
      cases hfin
    · rw [if_neg h1] at hfin
      by_cases h2 : (d.id : Int) ∈ EXCLUDED_ITEM_IDS
      · rw [if_pos h2] at hfin
        cases hfin
      · rw [if_neg h2] at hfin
        simp only [Option.some.injEq] at hfin
        subst hfin
        dsimp only
        exact ⟨by omega, h2⟩

unseal Rat.mul Rat.inv Rat.add Rat.sub in
/-- Witness for C10: the item returned for the concrete document carries
an id below the ceiling and outside the exclusion set. -/
theorem claim_C10_id_ceiling_and_exclusions_witness :
    (item7.id : Int) ≤ MAX_ITEM_ID ∧ (item7.id : Int) ∉ EXCLUDED_ITEM_IDS :=
  claim_C10_id_ceiling_and_exclusions html1S.data 42 item7 (by decide)

/-! ## Label-check fallback retention (C2) -/

unseal Rat.mul Rat.inv Rat.add Rat.sub in
/-- Counterexample to C2: in the NPC family, a constructor-call block
failing the exact `drops` label check is **not** retained even though it
contains a `data` field with a decodable item: the whole parse returns no
items (plus the empty-candidates warning), so the block's decoded item
does not participate in candidate selection. -/
theorem claim_C2_counterexample :
    listviewSites html0S.data = [13] ∧
      (blockAt html0S.data 13).map (fun b => b.1) = some blk0S.data ∧
      hasDropsId blk0S.data = false ∧
      (searchFirst mDataArr blk0S.data).isSome = true ∧
      parse_item_object obj7S.data ≠ none ∧
      processNpcBlock html0S.data 13 = none ∧
      parse_npc_loot_data html0S.data 42 = ([], [Diag.npcNotFound 42]) := by
  refine ⟨by decide, by decide, by decide, by decide, by decide, by decide, by decide⟩

/-- C2 (amended): only the object/item family retains blocks failing the
label check, and only when they contain an **inline** `data: [` array:
(i) the NPC family discards any block failing the exact `drops` check,
whatever its `data` field; (ii) the object/item family discards a block
failing the `contains` substring check when it has no inline data array;
(iii) the object/item family retains such a block when it does have one,
recording its decoded items as an unpreferred candidate. -/
theorem claim_C2_amended :
    (∀ (html : List Char) (sp : Nat) (b : List Char) (bi be : Nat),
        blockAt html sp = some (b, bi, be) → hasDropsId b = false →
        processNpcBlock html sp = none) ∧
      (∀ (html : List Char) (sp : Nat) (b : List Char) (bi be : Nat),
        blockAt html sp = some (b, bi, be) → hasContainsId b = false →
        searchFirst mDataArr b = none →
        processObjBlock html sp = none) ∧
      (∀ (html : List Char) (sp : Nat) (b : List Char) (bi be : Nat) (ds : List Char),
        blockAt html sp = some (b, bi, be) → hasContainsId b = false →
        (searchFirst mDataArr b).isSome = true →
        resolveDataStr html b bi be = some ds → decodeObjs ds ≠ [] →
        processObjBlock html sp = some (decodeObjs ds, false)) := by
  refine ⟨?_, ?_, ?_⟩
  · intro html sp b bi be hb hd
    unfold processNpcBlock
    rw [hb]
    simp [hd]
  · intro html sp b bi be hb hc hda
    unfold processObjBlock
    rw [hb]
    simp [hc, hda]
  · intro html sp b bi be ds hb hc hda hds hne
    have hcond : (!hasContainsId b && (searchFirst mDataArr b).isNone) = false := by
      cases hfa : searchFirst mDataArr b with
      | none => rw [hfa] at hda; simp at hda
      | some m => simp
    have hemp : (decodeObjs ds).isEmpty = false := by
      cases hq : decodeObjs ds with
      | nil => exact absurd hq hne
      | cons x xs => rfl
    unfold processObjBlock
    simp only [hb]
    simp [hcond, hds, hemp, hc]
    intro hfa
    rw [hfa] at hda
    simp at hda

unseal Rat.mul Rat.inv Rat.add Rat.sub in
/-- Witness for the amended C2: part (i) at the concrete NPC document —
the mislabelled block is discarded. -/
theorem claim_C2_amended_witness :
    processNpcBlock html0S.data 13 = none :=
  claim_C2_amended.1 html0S.data 13 blk0S.data 13 41 (by decide) (by decide)

/-! ## The data-reference window search (C3) -/

/-- Extending the text to the right preserves a successful literal match,
extending the remainder the same way. -/
lemma litAtCI_append (t : List Char) :
    ∀ (p cs r : List Char), litAtCI p cs = some r → litAtCI p (cs ++ t) = some (r ++ t) := by
  intro p
  induction p with
  | nil =>
    intro cs r h
    obtain rfl := Option.some.inj h
    rfl
  | cons x ps ih =>
    intro cs r h
    cases cs with
    | nil => simp [litAtCI] at h
    | cons c cs' =>
      simp only [litAtCI] at h ⊢
      by_cases hc : c.toLower = x.toLower
      · rw [if_pos hc] at h ⊢
        exact ih cs' r h
      · rw [if_neg hc] at h
        cases h

/-- Same for `\s*X`. -/
lemma wsExpect_append (x : Char) (t : List Char) :
    ∀ (cs r : List Char), wsExpect x cs = some r → wsExpect x (cs ++ t) = some (r ++ t) := by
  intro cs
  induction cs with
  | nil => intro r h; simp [wsExpect] at h
  | cons c cs' ih =>
    intro r h
    simp only [wsExpect] at h ⊢
    by_cases hw : isWsCh c = true
    · rw [if_pos hw] at h ⊢
      exact ih r h
    · rw [if_neg hw] at h ⊢
      by_cases hc : c = x
      · rw [if_pos hc] at h ⊢
        simp_all
      · rw [if_neg hc] at h
        cases h

lemma tailAssign_nil (v : List Char) : tailAssign v [] = none := by
  cases v with
  | nil => rfl
  | cons c r => rfl

lemma tailAssign_append (v t : List Char) :
    ∀ (cs r : List Char), tailAssign v cs = some r → tailAssign v (cs ++ t) = some (r ++ t) := by
  intro cs r h
  unfold tailAssign at h ⊢
  cases h1 : litAtCI v cs with
  | none => rw [h1] at h; cases h
  | some r1 =>
    rw [h1] at h
    rw [litAtCI_append t v cs r1 h1]
    simp only [Option.some_bind] at h ⊢
    cases h2 : wsExpect '=' r1 with
    | none => rw [h2] at h; cases h
    | some r2 =>
      rw [h2] at h
      rw [wsExpect_append '=' t r1 r2 h2]
      simp only [Option.some_bind] at h ⊢
      exact wsExpect_append '[' t r2 r h

lemma wsTail_append (v t : List Char) :
    ∀ (cs r : List Char), wsTail v cs = some r → wsTail v (cs ++ t) = some (r ++ t) := by
  intro cs
  induction cs with
  | nil =>
    intro r h
    rw [show wsTail v [] = tailAssign v [] from rfl, tailAssign_nil] at h
    cases h
  | cons c cs' ih =>
    intro r h
    have h' : (if isWsCh c = true then wsTail v cs' else tailAssign v (c :: cs')) = some r := h
    show (if isWsCh c = true then wsTail v (cs' ++ t)
          else tailAssign v (c :: (cs' ++ t))) = some (r ++ t)
    by_cases hw : isWsCh c = true
    · rw [if_pos hw] at h' ⊢
      exact ih r h'
    · rw [if_neg hw] at h' ⊢
      exact tailAssign_append v t (c :: cs') r h'

lemma ws1Tail_append (v t : List Char) :
    ∀ (cs r : List Char), ws1Tail v cs = some r → ws1Tail v (cs ++ t) = some (r ++ t) := by
  intro cs r h
  cases cs with
  | nil => simp [ws1Tail] at h
  | cons c cs' =>
    have h' : (if isWsCh c = true then wsTail v cs' else none) = some r := h
    show (if isWsCh c = true then wsTail v (cs' ++ t) else none) = some (r ++ t)
    by_cases hw : isWsCh c = true
    · rw [if_pos hw] at h' ⊢
      exact wsTail_append v t cs' r h'
    · rw [if_neg hw] at h'
      cases h'

/-- The variable-assignment pattern never matches at the end of text. -/
lemma varAssignMatch_nil (v : List Char) : varAssignMatch v [] = none := by
  unfold varAssignMatch
  have h1 : (litAtCI varKwS.data []).bind (ws1Tail v) = none := rfl
  have h2 : (litAtCI windowKwS.data []).bind (tailAssign v) = none := rfl
  rw [h1, h2, tailAssign_nil]

/-- A successful variable-assignment match survives extending the text to
the right. -/
lemma varAssignMatch_append (v t cs : List Char) (r : List Char)
    (h : varAssignMatch v cs = some r) : (varAssignMatch v (cs ++ t)).isSome = true := by
  unfold varAssignMatch at h ⊢
  cases hA : (litAtCI varKwS.data (cs ++ t)).bind (ws1Tail v) with
  | some rA => simp [hA]
  | none =>
    cases hA0 : (litAtCI varKwS.data cs).bind (ws1Tail v) with
    | some r0 =>
      exfalso
      cases h1 : litAtCI varKwS.data cs with
      | none => rw [h1] at hA0; cases hA0
      | some r1 =>
        rw [h1] at hA0
        simp only [Option.some_bind] at hA0
        rw [litAtCI_append t _ cs r1 h1] at hA
        simp only [Option.some_bind] at hA
        rw [ws1Tail_append v t r1 r0 hA0] at hA
        cases hA
    | none =>
      rw [hA0] at h
      cases hB0 : (litAtCI windowKwS.data cs).bind (tailAssign v) with
      | some r0 =>
        rw [hB0] at h
        cases h1 : litAtCI windowKwS.data cs with
        | none => rw [h1] at hB0; cases hB0
        | some r1 =>
          rw [h1] at hB0
          simp only [Option.some_bind] at hB0
          have hB : (litAtCI windowKwS.data (cs ++ t)).bind (tailAssign v) = some (r0 ++ t) := by
            rw [litAtCI_append t _ cs r1 h1]
            simp only [Option.some_bind]
            exact tailAssign_append v t r1 r0 hB0
          rw [hB]
          simp
      | none =>
        rw [hB0] at h
        have hC : tailAssign v (cs ++ t) = some (r ++ t) := tailAssign_append v t cs r h
        cases hB : (litAtCI windowKwS.data (cs ++ t)).bind (tailAssign v) with
        | some rB => simp
        | none => rw [hC]; simp

lemma vaM_nil (v : List Char) : vaM v [] = none := by
  unfold vaM
  rw [varAssignMatch_nil]
  rfl

/-- A failed search means the matcher fails at every position. -/
lemma searchGo_none_all (f : Mtch α) (hnil : f [] = none) :
    ∀ (fuel : Nat) (s : List Char) (pos : Nat), s.length + 1 ≤ fuel + pos →
      searchGo f fuel s pos = none → ∀ q, pos ≤ q → f (s.drop q) = none := by
  intro fuel
  induction fuel with
  | zero =>
    intro s pos hf _ q hq
    have : s.length ≤ q := by omega
    rw [List.drop_eq_nil_of_le this]
    exact hnil
  | succ fuel ih =>
    intro s pos hf h q hq
    simp only [searchGo] at h
    by_cases hp : pos < s.length
    · rw [if_pos hp] at h
      cases hm : f (s.drop pos) with
      | some m => rw [hm] at h; cases h
      | none =>
        rw [hm] at h
        by_cases hqe : q = pos
        · subst hqe; exact hm
        · exact ih s (pos + 1) (by omega) h q (by omega)
    · rw [if_neg hp] at h
      have : s.length ≤ q := by omega
      rw [List.drop_eq_nil_of_le this]
      exact hnil

/-- A successful search points at a position where the matcher succeeds. -/
lemma searchGo_some_at (f : Mtch α) :
    ∀ (fuel : Nat) (s : List Char) (pos p : Nat) (a : α) (e : Nat),
      searchGo f fuel s pos = some (p, a, e) → (f (s.drop p)).isSome = true := by
  intro fuel
  induction fuel with
  | zero => intro s pos p a e h; cases h
  | succ fuel ih =>
    intro s pos p a e h
    simp only [searchGo] at h
    by_cases hp : pos < s.length
    · rw [if_pos hp] at h
      cases hm : f (s.drop pos) with
      | some m =>
        rw [hm] at h
        obtain ⟨h1, _⟩ := Prod.mk.injEq .. ▸ Option.some.inj h
        subst h1
        rw [hm]
        rfl
      | none =>
        rw [hm] at h
        exact ih s (pos + 1) p a e h
    · rw [if_neg hp] at h
      cases h

/-- C3 (the code as written): a bare-identifier `data` reference is
resolved by searching the **full document first**; the subsequent
±5000-character window search runs only when the full-document search
failed, where it can never succeed — any window match is a full-document
match.  Hence (i) a failed full search forces a failed window search, and
(ii) in that case the resolver returns nothing: the window branch is
dead, and the claimed window-before-document precedence does not exist in
the code. -/
theorem claim_C3_window_search_dead :
    (∀ (v html : List Char) (ss se : Nat),
        searchVA v html = none → searchVA v (slice html ss se) = none) ∧
      (∀ (html b : List Char) (bi be ms me : Nat) (v : List Char),
        searchFirst mMData b = some (ms, DataRef.ident v, me) →
        searchVA v html = none →
        resolveDataStr html b bi be = none) := by
  have part1 : ∀ (v html : List Char) (ss se : Nat),
      searchVA v html = none → searchVA v (slice html ss se) = none := by
    intro v html ss se hfull
    cases hw : searchVA v (slice html ss se) with
    | none => rfl
    | some p =>
      exfalso
      unfold searchVA at hw hfull
      obtain ⟨⟨p', a, e⟩, hsf, hp⟩ := Option.map_eq_some'.mp hw
      have hsfn : searchFirst (vaM v) html = none := by
        cases hx : searchFirst (vaM v) html with
        | none => rfl
        | some m => rw [hx] at hfull; cases hfull
      have hmw : (vaM v ((slice html ss se).drop p')).isSome = true :=
        searchGo_some_at (vaM v) _ _ 0 p' a e hsf
      -- the window suffix extends to the document suffix
      have hdw : (slice html ss se).drop p' = (html.take se).drop (p' + ss) := by
        unfold slice
        rw [List.drop_drop, Nat.add_comm ss p']
      have hne : (slice html ss se).drop p' ≠ [] := by
        intro hcon
        rw [hcon, vaM_nil] at hmw
        cases hmw
      have hlt : p' + ss < (html.take se).length := by
        by_contra hge
        push_neg at hge
        rw [hdw, List.drop_eq_nil_of_le hge] at hne
        exact hne rfl
      have hsplit : html.drop (p' + ss) =
          (html.take se).drop (p' + ss) ++ html.drop se := by
        conv_lhs => rw [← List.take_append_drop se html]
        rw [List.drop_append_of_le_length (le_of_lt hlt)]
      obtain ⟨rw1, hrw1⟩ : ∃ r, varAssignMatch v ((slice html ss se).drop p') = some r := by
        unfold vaM at hmw
        cases hvm : varAssignMatch v ((slice html ss se).drop p') with
        | none => rw [hvm] at hmw; cases hmw
        | some r => exact ⟨r, rfl⟩
      have happ : (varAssignMatch v (((slice html ss se).drop p') ++ html.drop se)).isSome = true :=
        varAssignMatch_append v (html.drop se) _ rw1 hrw1
      rw [hdw, ← hsplit] at happ
      have hnone := searchGo_none_all (vaM v) (vaM_nil v) (html.length + 1) html 0
        (by omega) hsfn (p' + ss) (by omega)
      unfold vaM at hnone
      rw [Option.map_eq_none'] at hnone
      rw [hnone] at happ
      cases happ
  refine ⟨part1, ?_⟩
  intro html b bi be ms me v hm hfull
  unfold resolveDataStr
  simp only [hm]
  rw [hfull, part1 v html (bi - 5000) (min html.length (be + 5000)) hfull]

/-- Witness for C3: with no assignment of `lv` anywhere in the document,
the window search fails too. -/
theorem claim_C3_window_search_dead_witness :
    searchVA lvS.data (slice xxS.data 0 1) = none :=
  claim_C3_window_search_dead.1 lvS.data xxS.data 0 1 (by decide)

end Wowhead
